import Mathlib

/-!
Verification development for the isochrone dashboard
(src/isochrone-map-viewer/app.py).

The Python source is shallowly embedded below.  Coordinates, edge lengths
and travel times are modelled as rationals (the Python floats involved in
the claims, such as 1.25 and 1000/1.25, are exactly representable).
External library calls are modelled by their documented semantics:
networkx ego_graph with a travel-time radius is modelled as the set of
nodes whose single-source shortest-path distance is at most the radius,
and the shapely convex hull is modelled through the mathematical convex
hull of the generating coordinate set.
-/

attribute [local semireducible] Rat.add Rat.sub Rat.mul Rat.inv Rat.ofScientific

namespace Isochrone

/-- A road-network node: OSM id together with planar coordinates
(x = longitude, y = latitude), as stored on osmnx graph nodes. -/
structure Node where
  id : ℕ
  x : ℚ
  y : ℚ
deriving DecidableEq, Repr

/-- A raw directed edge as downloaded: endpoints plus physical length in
meters (the data stored on edges before annotation). -/
structure Edge where
  u : ℕ
  v : ℕ
  length : ℚ
deriving DecidableEq, Repr

/-- An annotated directed edge: the raw data plus the travel_time
attribute written by add_travel_time. -/
structure TEdge where
  u : ℕ
  v : ℕ
  length : ℚ
  travel_time : ℚ
deriving DecidableEq, Repr

/-- A raw road network (osmnx MultiDiGraph before annotation). -/
structure Graph where
  nodes : List Node
  edges : List Edge
deriving DecidableEq, Repr

/-- An annotated road network: every edge carries travel_time. -/
structure TGraph where
  nodes : List Node
  edges : List TEdge
deriving DecidableEq, Repr

/-- WALK_SPEED constant from app.py line 30: 1.25 m/s. -/
def WALK_SPEED : ℚ := 5 / 4

/-- Embedding of add_travel_time (app.py lines 110-118).  In walk mode
every edge gets travel_time = length / WALK_SPEED.  In the other (drive)
branch the code calls the external osmnx speed inference; that external
capability is passed in as speedOf, giving the effective speed in m/s for
an edge, and travel_time = length / speed. -/
def add_travel_time (G : Graph) (mode : String) (speedOf : Edge → ℚ) : TGraph :=
  if mode = "walk" then
    ⟨G.nodes, G.edges.map (fun e => ⟨e.u, e.v, e.length, e.length / WALK_SPEED⟩)⟩
  else
    ⟨G.nodes, G.edges.map (fun e => ⟨e.u, e.v, e.length, e.length / speedOf e⟩)⟩

/-- Minimum of two optional distances (absent means unreachable). -/
def oMin : Option ℚ → Option ℚ → Option ℚ
  | none, b => b
  | some a, none => some a
  | some a, some b => some (min a b)

/-- One round of relaxation of all edges, as in Bellman-Ford: the
tentative distance of a node v is improved through every edge into v. -/
def relaxAll (es : List TEdge) (d : ℕ → Option ℚ) : ℕ → Option ℚ :=
  fun v =>
    es.foldl
      (fun acc e =>
        if e.v = v then oMin acc ((d e.u).map (· + e.travel_time)) else acc)
      (d v)

/-- Single-source shortest-path distances of the annotated network,
computed by iterating edge relaxation once per node.  For the nonnegative
travel times produced by the annotator this coincides with the Dijkstra
distances used by networkx ego_graph. -/
def distFun (G : TGraph) (s : ℕ) : ℕ → Option ℚ :=
  (relaxAll G.edges)^[G.nodes.length] (fun v => if v = s then some 0 else none)

/-- The node set of nx.ego_graph(G, s, radius = t, distance = travel_time)
(app.py lines 125-130): all nodes whose shortest travel time from s is at
most t. -/
def reachNodes (G : TGraph) (s : ℕ) (t : ℚ) : List Node :=
  G.nodes.filter (fun nd =>
    match distFun G s nd.id with
    | some d => decide (d ≤ t)
    | none => false)

/-- Squared planar distance, longitude and latitude treated as Cartesian. -/
def sqDist (x1 y1 x2 y2 : ℚ) : ℚ := (x1 - x2) ^ 2 + (y1 - y2) ^ 2

/-- Embedding of ox.nearest_nodes(G, lon, lat) (app.py line 123): the
node minimizing planar distance to the query point, first-wins on ties;
absent for an empty network (where the library call would fail). -/
def nearestNode (G : TGraph) (lon lat : ℚ) : Option Node :=
  match G.nodes with
  | [] => none
  | h :: rest =>
      some (rest.foldl
        (fun best nd =>
          if sqDist nd.x nd.y lon lat < sqDist best.x best.y lon lat then nd
          else best)
        h)

/-- Embedding of calculate_isochrone (app.py lines 121-143).  The
returned polygon is represented by the list of reachable-node coordinates
(x, y) handed to shapely; its geometric region is their convex hull
(hullRegion below).  Fewer than 3 reachable nodes gives None. -/
def calculate_isochrone (G : TGraph) (lat lon : ℚ) (trip_time : ℚ) :
    Option (List (ℚ × ℚ)) :=
  match nearestNode G lon lat with
  | none => none
  | some c =>
      let reach := reachNodes G c.id trip_time
      if reach.length < 3 then none
      else some (reach.map (fun nd => (nd.x, nd.y)))

/-- The geometric region of the polygon MultiPoint(coords).convex_hull:
the convex hull of the generating coordinate set. -/
def hullRegion (coords : List (ℚ × ℚ)) : Set (ℚ × ℚ) :=
  convexHull ℚ {p | p ∈ coords}

/-- Cross product of the vectors o→a and o→b; positive when b lies
strictly to the left of the directed line o→a. -/
def cross (o a b : ℚ × ℚ) : ℚ :=
  (a.1 - o.1) * (b.2 - o.2) - (a.2 - o.2) * (b.1 - o.1)

/-- Directed edge list of a polygon ring given by its vertices in
counter-clockwise order without the closing repetition (the form shapely
stores for a convex hull, up to the repeated last vertex). -/
def ringEdges (P : List (ℚ × ℚ)) : List ((ℚ × ℚ) × (ℚ × ℚ)) :=
  P.zip (P.rotate 1)

/-- Embedding of shapely polygon.contains(point) for the convex
counter-clockwise rings produced by the hull builder: the point lies
strictly to the left of every directed edge, so points of the boundary
are excluded. -/
def shapelyContains (P : List (ℚ × ℚ)) (p : ℚ × ℚ) : Bool :=
  (ringEdges P).all (fun e => decide (0 < cross e.1 e.2 p))

/-- Embedding of is_point_in_polygon (app.py lines 216-221): with no
polygon every point passes; otherwise shapely containment of
Point(lon, lat). -/
def is_point_in_polygon (lat lon : ℚ) (polygon : Option (List (ℚ × ℚ))) : Bool :=
  match polygon with
  | none => true
  | some P => shapelyContains P (lon, lat)

/-- A POI point as consumed by the spatial filter: normalized latitude
and longitude in degrees. -/
structure POIPoint where
  lat : ℚ
  lon : ℚ
deriving DecidableEq, Repr

/-- The spatial filter of the POI pipeline (app.py line 259): keep
exactly the points accepted by is_point_in_polygon. -/
def filterPOIs (pts : List POIPoint) (polygon : Option (List (ℚ × ℚ))) :
    List POIPoint :=
  pts.filter (fun q => is_point_in_polygon q.lat q.lon polygon)

/-- Modelled from the specification of the boundary-exclusive containment
test, written from the words of the spec: the point is inside the closed
convex region (on the inner side of every edge) and not on the boundary
(on no edge line). -/
def specStrictlyInside (P : List (ℚ × ℚ)) (p : ℚ × ℚ) : Bool :=
  (ringEdges P).all (fun e => decide (0 ≤ cross e.1 e.2 p)) &&
    !(ringEdges P).any (fun e => decide (cross e.1 e.2 p = 0))

/-- Value of a decimal digit character, absent for non-digits. -/
def digitVal (c : Char) : Option ℕ :=
  if c.isDigit then some (c.toNat - 48) else none

/-- Parse a nonempty string of decimal digits into a natural number. -/
def parseDigits : List Char → Option ℕ
  | [] => none
  | cs =>
      cs.foldl
        (fun acc c =>
          match acc, digitVal c with
          | some n, some d => some (10 * n + d)
          | _, _ => none)
        (some 0)

/-- Model of the Python int() conversion applied to the coordinate
strings of the POI provider: an optional sign followed by decimal
digits; anything else raises, modelled as none. -/
def pyInt (s : String) : Option ℤ :=
  match s.data with
  | [] => none
  | c :: rest =>
      if c = '-' then (parseDigits rest).map (fun n => -(n : ℤ))
      else if c = '+' then (parseDigits rest).map (fun n => (n : ℤ))
      else (parseDigits (c :: rest)).map (fun n => (n : ℤ))

/-- Embedding of convert_naver_coords (app.py lines 203-213): both raw
coordinates are converted with int() and scaled by 1/10,000,000; any
conversion error yields the pair (None, None).  The result is
(latitude, longitude). -/
def convert_naver_coords (mapx mapy : String) : Option ℚ × Option ℚ :=
  match pyInt mapx, pyInt mapy with
  | some x, some y => (some ((y : ℚ) / 10000000), some ((x : ℚ) / 10000000))
  | _, _ => (none, none)

/-- Python truthiness of an optional float, as tested by the line
`if lat and lon`: None and 0.0 are falsy. -/
def truthy : Option ℚ → Bool
  | none => false
  | some q => decide (q ≠ 0)

/-- Embedding of the per-item coordinate check and spatial filtering in
search_poi_with_location (app.py lines 251-264): the item survives iff
both converted coordinates are truthy and the point passes
is_point_in_polygon. -/
def itemPasses (polygon : Option (List (ℚ × ℚ))) (mapx mapy : String) : Bool :=
  let c := convert_naver_coords mapx mapy
  if truthy c.1 && truthy c.2 then
    match c.1, c.2 with
    | some la, some lo => is_point_in_polygon la lo polygon
    | _, _ => false
  else false

/-- Body of the band-map construction loop of main (app.py lines
471-475): compute the isochrone for time * 60 seconds and append the
time-to-polygon entry only when the result is present. -/
def bandStep (G : TGraph) (lat lon : ℚ)
    (acc : List (ℕ × List (ℚ × ℚ))) (t : ℕ) : List (ℕ × List (ℚ × ℚ)) :=
  match calculate_isochrone G lat lon ((t : ℚ) * 60) with
  | some iso => acc ++ [(t, iso)]
  | none => acc

/-- Embedding of the band-map construction loop of main (app.py lines
470-476): the selected times are processed in request order.  The Python
dict keyed by distinct selected times iterates in insertion order,
modelled by an association list built by appending. -/
def buildBands (G : TGraph) (lat lon : ℚ) (times : List ℕ) :
    List (ℕ × List (ℚ × ℚ)) :=
  times.foldl (bandStep G lat lon) []

/-- Iteration order of the polygon-drawing loop of create_map (app.py
line 289): the keys of the band map sorted in reverse, largest time
first. -/
def renderOrder (bands : List (ℕ × List (ℚ × ℚ))) : List ℕ :=
  (bands.map Prod.fst).insertionSort (fun a b => b ≤ a)

/-- RADIUS_BY_TIME table (app.py lines 40-47): suggested download radius
in meters by time budget in minutes and network type; absent outside the
table (a KeyError in the source). -/
def RADIUS_BY_TIME (t : ℕ) (ntype : String) : Option ℕ :=
  if ntype = "walk" then
    match t with
    | 5 => some 1000
    | 10 => some 1500
    | 15 => some 2000
    | 20 => some 2500
    | 30 => some 3000
    | 60 => some 6000
    | _ => none
  else if ntype = "drive" then
    match t with
    | 5 => some 4000
    | 10 => some 7000
    | 15 => some 10000
    | 20 => some 12000
    | 30 => some 18000
    | 60 => some 35000
    | _ => none
  else none

/-- Python max over a list of naturals: absent on the empty list. -/
def pyMax : List ℕ → Option ℕ
  | [] => none
  | h :: rest => some (rest.foldl Nat.max h)

/-- Observable events of one isochrone request, used to trace the
orchestration in main: a network fetch (get_graph), the travel-time
annotation, and one per-band isochrone computation. -/
inductive Event where
  | fetch (lat lon : ℚ) (radius : ℕ) (ntype : String)
  | annotate (ntype : String)
  | band (t : ℕ)
deriving DecidableEq, Repr

/-- Embedding of the isochrone branch of main (app.py lines 456-476):
take the maximum selected time, look up its download radius for the
chosen network type, fetch one network with that radius, annotate it
once, then build all bands from the single annotated network.  The
external network provider is the parameter provider, and speedOf is the
external speed inference for drive mode.  The value returned is the band
map together with the trace of events in execution order. -/
def orchestrate (provider : ℚ → ℚ → ℕ → String → Graph)
    (speedOf : Edge → ℚ) (lat lon : ℚ) (ntype : String) (times : List ℕ) :
    Option (List (ℕ × List (ℚ × ℚ)) × List Event) :=
  match pyMax times with
  | none => none
  | some mt =>
      match RADIUS_BY_TIME mt ntype with
      | none => none
      | some dist =>
          let G := provider lat lon dist ntype
          let TG := add_travel_time G ntype speedOf
          some (buildBands TG lat lon times,
            Event.fetch lat lon dist ntype :: Event.annotate ntype ::
              times.map Event.band)

/-- Number of fetch events in a trace. -/
def fetchCount (tr : List Event) : ℕ :=
  tr.countP (fun e => match e with | Event.fetch _ _ _ _ => true | _ => false)

/-- Number of annotation events in a trace. -/
def annotateCount (tr : List Event) : ℕ :=
  tr.countP (fun e => match e with | Event.annotate _ => true | _ => false)

/-! ### Helper lemmas -/

/-- Sample annotated network used by the witnesses: three nodes in a
small triangle, the origin connected to the other two by edges of
travel time 8 seconds. -/
def Gsample : TGraph :=
  ⟨[⟨0, 0, 0⟩, ⟨1, 1, 0⟩, ⟨2, 0, 1⟩],
   [⟨0, 1, 10, 8⟩, ⟨0, 2, 10, 8⟩]⟩

/-! ### C1 -/

/-- C1: for every annotated network, source coordinate and time budgets
t1 < t2, the reachable set computed for budget t1 (the node set of the
ego_graph at radius t1 around the nearest node) is contained in the
reachable set computed for budget t2 over the same graph and center. -/
theorem C1_reach_monotone (G : TGraph) (lat lon : ℚ) (c : Node)
    (hc : nearestNode G lon lat = some c) (t1 t2 : ℚ) (h : t1 < t2) :
    reachNodes G c.id t1 ⊆ reachNodes G c.id t2 := by
  intro nd hnd
  rw [reachNodes, List.mem_filter] at hnd ⊢
  refine ⟨hnd.1, ?_⟩
  rcases hnd with ⟨-, hp⟩
  cases hd : distFun G c.id nd.id with
  | none => rw [hd] at hp; exact absurd hp (by simp)
  | some d =>
      rw [hd] at hp
      simp only [decide_eq_true_eq] at hp ⊢
      exact le_trans hp (le_of_lt h)

/-- Witness for C1 on the sample network with budgets 1 < 300. -/
theorem C1_reach_monotone_witness :
    reachNodes Gsample 0 1 ⊆ reachNodes Gsample 0 300 :=
  C1_reach_monotone Gsample 0 0 ⟨0, 0, 0⟩ (by decide) 1 300 (by decide)

/-! ### C2 -/

/-- C2: in pedestrian mode the annotator assigns to every edge
travel_time = length / 1.25, and in particular an edge of length 1000
meters gets travel_time 800.0 seconds. -/
theorem C2_walk_speed_rule (G : Graph) (speedOf : Edge → ℚ) (e : TEdge)
    (he : e ∈ (add_travel_time G "walk" speedOf).edges) :
    e.travel_time = e.length / WALK_SPEED ∧
      (e.length = 1000 → e.travel_time = 800) := by
  rw [add_travel_time, if_pos rfl] at he
  rcases List.mem_map.1 he with ⟨e0, -, rfl⟩
  refine ⟨rfl, fun h => ?_⟩
  show e0.length / WALK_SPEED = 800
  have h0 : e0.length = 1000 := h
  rw [h0, WALK_SPEED]
  norm_num

/-- Witness for C2: the single edge of length 1000 of a one-edge walk
network is annotated with travel_time 800. -/
theorem C2_walk_speed_rule_witness :
    (⟨0, 1, 1000, 800⟩ : TEdge).travel_time = 800 :=
  (C2_walk_speed_rule ⟨[], [⟨0, 1, 1000⟩]⟩ (fun _ => 0) ⟨0, 1, 1000, 800⟩
    (by decide)).2 (by decide)

/-! ### C4 -/

lemma shapelyContains_eq_spec (P : List (ℚ × ℚ)) (p : ℚ × ℚ) :
    shapelyContains P p = specStrictlyInside P p := by
  rw [Bool.eq_iff_iff]
  rw [shapelyContains, specStrictlyInside]
  simp only [List.all_eq_true, Bool.and_eq_true, Bool.not_eq_true',
    List.any_eq_false, decide_eq_true_eq, decide_eq_false_iff_not]
  constructor
  · intro h
    exact ⟨fun e he => le_of_lt (h e he), fun e he => ne_of_gt (h e he)⟩
  · intro h e he
    exact lt_of_le_of_ne (h.1 e he) (Ne.symm (h.2 e he))

/-- C4: with a present polygon the spatial filter keeps exactly the
points strictly inside it, points on the boundary excluded; with the
polygon absent the filter passes every point unchanged. -/
theorem C4_filter_correct (pts : List POIPoint) (P : List (ℚ × ℚ)) :
    filterPOIs pts (some P) =
        pts.filter (fun q => specStrictlyInside P (q.lon, q.lat)) ∧
      filterPOIs pts none = pts := by
  constructor
  · rw [filterPOIs]
    refine List.filter_congr (fun q _ => ?_)
    rw [is_point_in_polygon]
    exact shapelyContains_eq_spec P (q.lon, q.lat)
  · rw [filterPOIs]
    simp [is_point_in_polygon]

/-! ### C9 -/

/-- C9: a POI whose raw coordinates fail integer conversion, or whose
converted latitude or longitude is exactly 0, is dropped by the
search-and-filter pipeline regardless of the polygon, because the
coordinate check uses Python truthiness. -/
theorem C9_truthiness_drop (polygon : Option (List (ℚ × ℚ)))
    (mapx mapy : String)
    (h : (convert_naver_coords mapx mapy).1 = none ∨
         (convert_naver_coords mapx mapy).2 = none ∨
         (convert_naver_coords mapx mapy).1 = some 0 ∨
         (convert_naver_coords mapx mapy).2 = some 0) :
    itemPasses polygon mapx mapy = false := by
  rw [itemPasses]
  rcases h with h | h | h | h <;>
    simp only [h, truthy, Bool.false_and, Bool.and_false, if_false,
      decide_eq_true_eq] <;>
    simp

/-- Witness for C9: a POI at raw coordinates mapx = 0 converts to
longitude 0 and is dropped even with no polygon at all. -/
theorem C9_truthiness_drop_witness : itemPasses none "0" "1234567" = false :=
  C9_truthiness_drop none "0" "1234567" (by decide)

/-! ### C3 -/

/-- Annotated network with two nodes at identical coordinates: three
nodes but only two distinct coordinate points. -/
def Gdup : TGraph :=
  ⟨[⟨0, 0, 0⟩, ⟨1, 0, 0⟩, ⟨2, 1, 1⟩],
   [⟨0, 1, 10, 8⟩, ⟨0, 2, 10, 8⟩]⟩

/-- Counterexample to C3 as stated: on Gdup the reachable set for budget
10 has three nodes but only two distinct coordinates, yet the hull
builder returns a present polygon, because calculate_isochrone counts
nodes, not distinct coordinates. -/
theorem C3_distinct_coords_cex :
    ((reachNodes Gdup 0 10).map (fun nd => (nd.x, nd.y))).dedup.length = 2 ∧
      (calculate_isochrone Gdup 0 0 10).isSome = true := by
  constructor
  · decide
  · decide

/-- C3 amended: the hull builder returns an absent polygon exactly when
the reachable set has fewer than 3 nodes, nodes counted as graph nodes
rather than distinct coordinate points. -/
theorem C3_insufficient_nodes (G : TGraph) (lat lon t : ℚ) (c : Node)
    (hc : nearestNode G lon lat = some c) :
    calculate_isochrone G lat lon t = none ↔
      (reachNodes G c.id t).length < 3 := by
  rw [calculate_isochrone, hc]
  by_cases h : (reachNodes G c.id t).length < 3
  · simp [h]
  · simp [h]

/-- Witness for C3 amended on the sample network. -/
theorem C3_insufficient_nodes_witness :
    calculate_isochrone Gsample 0 0 300 = none ↔
      (reachNodes Gsample 0 300).length < 3 :=
  C3_insufficient_nodes Gsample 0 0 300 ⟨0, 0, 0⟩ (by decide)

/-! ### C10 -/

lemma buildBands_acc (G : TGraph) (lat lon : ℚ) (times : List ℕ) :
    ∀ acc : List (ℕ × List (ℚ × ℚ)),
      times.foldl (bandStep G lat lon) acc = acc ++ buildBands G lat lon times := by
  induction times with
  | nil => intro acc; simp [buildBands]
  | cons t ts ih =>
      intro acc
      rw [buildBands, List.foldl_cons, List.foldl_cons, ih, ih (bandStep G lat lon [] t)]
      rw [bandStep, bandStep]
      cases calculate_isochrone G lat lon ((t : ℚ) * 60) with
      | some iso => simp
      | none => simp

lemma buildBands_cons (G : TGraph) (lat lon : ℚ) (t : ℕ) (ts : List ℕ) :
    buildBands G lat lon (t :: ts) =
      bandStep G lat lon [] t ++ buildBands G lat lon ts := by
  rw [buildBands, List.foldl_cons, buildBands_acc]

/-- C10: the band map stores no absent polygon: a budget whose hull
computation returns None gets no entry, and every stored entry carries
the present polygon computed for its budget, so the keys are exactly the
requested budgets with a present result. -/
theorem C10_no_absent_bands (G : TGraph) (lat lon : ℚ) (times : List ℕ)
    (hnd : times.Nodup) :
    (∀ t iso, (t, iso) ∈ buildBands G lat lon times →
        calculate_isochrone G lat lon ((t : ℚ) * 60) = some iso) ∧
      (buildBands G lat lon times).map Prod.fst =
        times.filter
          (fun (t : ℕ) => (calculate_isochrone G lat lon ((t : ℚ) * 60)).isSome) := by
  clear hnd
  induction times with
  | nil =>
      constructor
      · intro t iso h
        rw [buildBands, List.foldl_nil] at h
        exact absurd h (List.not_mem_nil _)
      · rw [buildBands, List.foldl_nil]
        simp
  | cons t ts ih =>
      rw [buildBands_cons, bandStep]
      cases hcalc : calculate_isochrone G lat lon ((t : ℚ) * 60) with
      | some iso =>
          constructor
          · intro t' iso' hmem
            simp only [List.nil_append, List.cons_append, List.mem_cons] at hmem
            rcases hmem with heq | hmem
            · rw [Prod.mk.injEq] at heq
              rw [heq.1, heq.2]
              exact hcalc
            · exact ih.1 t' iso' hmem
          · simp only [List.nil_append, List.cons_append, List.map_cons,
              List.filter_cons, hcalc, Option.isSome_some, if_true, ih.2]
      | none =>
          constructor
          · intro t' iso' hmem
            simp only [List.nil_append] at hmem
            exact ih.1 t' iso' hmem
          · simp [List.filter_cons, hcalc, ih.2]

/-- Witness for C10: keys of the band map of the sample network for the
requested budgets 15 and 5. -/
theorem C10_no_absent_bands_witness :
    (buildBands Gsample 0 0 [15, 5]).map Prod.fst =
      [15, 5].filter
        (fun (t : ℕ) => (calculate_isochrone Gsample 0 0 ((t : ℚ) * 60)).isSome) :=
  (C10_no_absent_bands Gsample 0 0 [15, 5] (by decide)).2

/-! ### C6 -/

/-- Counterexample to C6 as stated: the band map built from the request
order [5, 15] iterates its keys as [5, 15], which is not descending;
the dict preserves insertion order and is not itself sorted. -/
theorem C6_iteration_order_cex :
    (buildBands Gsample 0 0 [5, 15]).map Prod.fst = [5, 15] ∧
      ¬ List.Sorted (fun a b => b ≤ a)
        ((buildBands Gsample 0 0 [5, 15]).map Prod.fst) := by
  constructor
  · decide
  · decide

/-- C6 amended: the band map iterates in request (insertion) order; it
is the polygon-drawing loop of create_map that iterates the band keys in
descending order of time budget, largest first, regardless of request
order (its order is sorted and a permutation of the stored keys). -/
theorem C6_render_order (G : TGraph) (lat lon : ℚ) (times : List ℕ) :
    List.Sorted (fun a b => b ≤ a) (renderOrder (buildBands G lat lon times)) ∧
      (renderOrder (buildBands G lat lon times)).Perm
        ((buildBands G lat lon times).map Prod.fst) := by
  haveI : IsTotal ℕ (fun a b => b ≤ a) := ⟨fun a b => le_total b a⟩
  haveI : IsTrans ℕ (fun a b => b ≤ a) := ⟨fun a b c h1 h2 => le_trans h2 h1⟩
  exact ⟨List.sorted_insertionSort _ _, List.perm_insertionSort _ _⟩

/-! ### C5 -/

/-- C5: when the hull builder returns a polygon, every reachable node
coordinate lies within or on the boundary of its region (the convex hull
of the reachable coordinates), that region is convex, it is minimal
among convex regions containing the reachable coordinates, and it is the
unique such minimal region. -/
theorem C5_hull_minimal (G : TGraph) (lat lon t : ℚ) (c : Node)
    (poly : List (ℚ × ℚ)) (hc : nearestNode G lon lat = some c)
    (h : calculate_isochrone G lat lon t = some poly) :
    (∀ nd ∈ reachNodes G c.id t, (nd.x, nd.y) ∈ hullRegion poly) ∧
      Convex ℚ (hullRegion poly) ∧
      (∀ C : Set (ℚ × ℚ), Convex ℚ C → (∀ p ∈ poly, p ∈ C) →
        hullRegion poly ⊆ C) ∧
      (∀ D : Set (ℚ × ℚ), Convex ℚ D → (∀ p ∈ poly, p ∈ D) →
        (∀ C : Set (ℚ × ℚ), Convex ℚ C → (∀ p ∈ poly, p ∈ C) → D ⊆ C) →
        D = hullRegion poly) := by
  have hpoly : poly = (reachNodes G c.id t).map (fun nd => (nd.x, nd.y)) := by
    simp only [calculate_isochrone, hc] at h
    by_cases hl : (reachNodes G c.id t).length < 3
    · rw [if_pos hl] at h; cases h
    · rw [if_neg hl] at h
      exact (Option.some_inj.1 h).symm
  refine ⟨?_, ?_, ?_, ?_⟩
  · intro nd hnd
    apply subset_convexHull ℚ {p | p ∈ poly}
    show (nd.x, nd.y) ∈ poly
    rw [hpoly]
    exact List.mem_map_of_mem _ hnd
  · exact convex_convexHull ℚ _
  · intro C hC hsub
    exact convexHull_min (fun p hp => hsub p hp) hC
  · intro D hD hsubD hmin
    apply Set.Subset.antisymm
    · exact hmin _ (convex_convexHull ℚ _)
        (fun p hp => subset_convexHull ℚ {q | q ∈ poly} hp)
    · exact convexHull_min (fun p hp => hsubD p hp) hD

/-- Witness for C5: the origin, a reachable node of the sample network,
lies in the hull region of the polygon returned for budget 300. -/
theorem C5_hull_minimal_witness :
    ((0 : ℚ), (0 : ℚ)) ∈ hullRegion [(0, 0), (1, 0), (0, 1)] :=
  (C5_hull_minimal Gsample 0 0 300 ⟨0, 0, 0⟩ [(0, 0), (1, 0), (0, 1)]
    (by decide) (by decide)).1 ⟨0, 0, 0⟩ (by decide)

/-! ### C8 -/

lemma foldl_max_le_init (l : List ℕ) (a : ℕ) : a ≤ l.foldl Nat.max a := by
  induction l generalizing a with
  | nil => exact le_refl a
  | cons b t ih => exact le_trans (Nat.le_max_left a b) (ih (Nat.max a b))

lemma foldl_max_mem (l : List ℕ) (a : ℕ) :
    l.foldl Nat.max a = a ∨ l.foldl Nat.max a ∈ l := by
  induction l generalizing a with
  | nil => exact Or.inl rfl
  | cons b t ih =>
      rw [List.foldl_cons]
      rcases ih (Nat.max a b) with h | h
      · have hm : Nat.max a b = a ∨ Nat.max a b = b := by
          rcases le_total b a with hab | hab
          · exact Or.inl (max_eq_left hab)
          · exact Or.inr (max_eq_right hab)
        rcases hm with hm | hm
        · exact Or.inl (by rw [h, hm])
        · exact Or.inr (by rw [h, hm]; exact List.mem_cons_self _ _)
      · exact Or.inr (List.mem_cons_of_mem _ h)

lemma foldl_max_ub (l : List ℕ) (a : ℕ) : ∀ t ∈ l, t ≤ l.foldl Nat.max a := by
  induction l generalizing a with
  | nil => intro t ht; cases ht
  | cons b t ih =>
      intro u hu
      rw [List.foldl_cons]
      rcases List.mem_cons.1 hu with rfl | hu
      · exact le_trans (Nat.le_max_right a u) (foldl_max_le_init t _)
      · exact ih (Nat.max a b) u hu

lemma pyMax_spec (l : List ℕ) (m : ℕ) (h : pyMax l = some m) :
    m ∈ l ∧ ∀ t ∈ l, t ≤ m := by
  cases l with
  | nil => cases h
  | cons a t =>
      rw [pyMax] at h
      have hm : t.foldl Nat.max a = m := Option.some_inj.1 h
      constructor
      · rcases foldl_max_mem t a with h1 | h1
        · rw [← hm, h1]; exact List.mem_cons_self _ _
        · rw [← hm]; exact List.mem_cons_of_mem _ h1
      · intro u hu
        rcases List.mem_cons.1 hu with rfl | hu
        · rw [← hm]; exact foldl_max_le_init t u
        · rw [← hm]; exact foldl_max_ub t a u hu

/-- C8: for a non-empty request the orchestrator performs exactly one
network fetch, with the download radius looked up for the maximum
requested time budget and the chosen network type, and annotates the
fetched network exactly once, before all per-band computations. -/
theorem C8_single_fetch (provider : ℚ → ℚ → ℕ → String → Graph)
    (speedOf : Edge → ℚ) (lat lon : ℚ) (ntype : String) (times : List ℕ)
    (mt radius : ℕ) (h1 : pyMax times = some mt)
    (h2 : RADIUS_BY_TIME mt ntype = some radius) :
    (mt ∈ times ∧ ∀ t ∈ times, t ≤ mt) ∧
      orchestrate provider speedOf lat lon ntype times =
        some (buildBands (add_travel_time (provider lat lon radius ntype) ntype speedOf)
            lat lon times,
          Event.fetch lat lon radius ntype :: Event.annotate ntype ::
            times.map Event.band) ∧
      fetchCount (Event.fetch lat lon radius ntype :: Event.annotate ntype ::
        times.map Event.band) = 1 ∧
      annotateCount (Event.fetch lat lon radius ntype :: Event.annotate ntype ::
        times.map Event.band) = 1 := by
  refine ⟨pyMax_spec times mt h1, ?_, ?_, ?_⟩
  · simp only [orchestrate, h1, h2]
  · rw [fetchCount]
    rw [List.countP_cons, List.countP_cons]
    have hz : (times.map Event.band).countP
        (fun e => match e with | Event.fetch _ _ _ _ => true | _ => false) = 0 := by
      rw [List.countP_eq_zero]
      intro a ha
      rcases List.mem_map.1 ha with ⟨u, -, rfl⟩
      simp
    rw [hz]
    simp
  · rw [annotateCount]
    rw [List.countP_cons, List.countP_cons]
    have hz : (times.map Event.band).countP
        (fun e => match e with | Event.annotate _ => true | _ => false) = 0 := by
      rw [List.countP_eq_zero]
      intro a ha
      rcases List.mem_map.1 ha with ⟨u, -, rfl⟩
      simp
    rw [hz]
    simp

/-- Trivial network provider used by the C8 witness. -/
def provider0 : ℚ → ℚ → ℕ → String → Graph := fun _ _ _ _ => ⟨[], []⟩

/-- Trivial external speed inference used by the C8 witness. -/
def speed0 : Edge → ℚ := fun _ => 0

/-- Witness for C8: for the request [15, 5] in walk mode the orchestrator
fetches once with the radius 2000 associated with the maximum budget 15. -/
theorem C8_single_fetch_witness :
    orchestrate provider0 speed0 0 0 "walk" [15, 5] =
      some (buildBands (add_travel_time (provider0 0 0 2000 "walk") "walk" speed0)
          0 0 [15, 5],
        Event.fetch 0 0 2000 "walk" :: Event.annotate "walk" ::
          [15, 5].map Event.band) :=
  (C8_single_fetch provider0 speed0 0 0 "walk" [15, 5] 15 2000
    (by decide) (by decide)).2.1

/-! ### C7 -/

/-- Walk-annotated network with a zero-length edge, to which the
annotator assigns travel time 0. -/
def Gzero : TGraph :=
  add_travel_time ⟨[⟨0, 0, 0⟩, ⟨1, 1, 0⟩], [⟨0, 1, 0⟩]⟩ "walk" (fun _ => 0)

/-- Counterexample to C7 as stated: on a network with a zero-length edge
the reachable set for budget 0 contains a second node besides the
nearest node, because the zero-length edge gets travel time 0. -/
theorem C7_zero_budget_cex :
    nearestNode Gzero 0 0 = some ⟨0, 0, 0⟩ ∧
      reachNodes Gzero 0 0 = [⟨0, 0, 0⟩, ⟨1, 1, 0⟩] := by
  constructor
  · decide
  · decide

/-- Invariant of the tentative-distance maps arising during the
shortest-path computation from source s, when all edge travel times are
positive: the source has distance 0 and every other assigned distance is
positive. -/
def distInv (s : ℕ) (d : ℕ → Option ℚ) : Prop :=
  d s = some 0 ∧ ∀ v q, d v = some q → 0 ≤ q ∧ (v ≠ s → 0 < q)

lemma oMin_bound (P : ℚ → Prop) (hP : ∀ a b, P a → P b → P (min a b))
    (a b : Option ℚ) (ha : ∀ q, a = some q → P q) (hb : ∀ q, b = some q → P q) :
    ∀ q, oMin a b = some q → P q := by
  cases a with
  | none => exact hb
  | some qa =>
      cases b with
      | none => exact ha
      | some qb =>
          intro q h
          have hq : min qa qb = q := Option.some_inj.1 h
          rw [← hq]
          exact hP qa qb (ha qa rfl) (hb qb rfl)

lemma relaxAll_inv (es : List TEdge) (hpos : ∀ e ∈ es, 0 < e.travel_time)
    (d : ℕ → Option ℚ) (s : ℕ) (hd : distInv s d) :
    distInv s (relaxAll es d) := by
  have hcand : ∀ e ∈ es, ∀ q, (d e.u).map (· + e.travel_time) = some q →
      0 < q := by
    intro e he q hq
    rcases Option.map_eq_some'.1 hq with ⟨qu, hqu, rfl⟩
    have h1 := (hd.2 e.u qu hqu).1
    have h2 := hpos e he
    linarith
  constructor
  · show es.foldl
        (fun acc e =>
          if e.v = s then oMin acc ((d e.u).map (· + e.travel_time)) else acc)
        (d s) = some 0
    have key : ∀ (l : List TEdge) (acc : Option ℚ),
        (∀ e ∈ l, ∀ q, (d e.u).map (· + e.travel_time) = some q → 0 < q) →
        acc = some 0 →
        l.foldl
          (fun acc e =>
            if e.v = s then oMin acc ((d e.u).map (· + e.travel_time)) else acc)
          acc = some 0 := by
      intro l
      induction l with
      | nil => intro acc _ h; exact h
      | cons e l ih =>
          intro acc hl h
          rw [List.foldl_cons]
          apply ih
          · intro e' he'
            exact hl e' (List.mem_cons_of_mem _ he')
          · by_cases hev : e.v = s
            · rw [if_pos hev, h]
              cases hcc : (d e.u).map (· + e.travel_time) with
              | none => rfl
              | some qc =>
                  show some (min 0 qc) = some 0
                  rw [min_eq_left
                    (le_of_lt (hl e (List.mem_cons_self _ _) qc hcc))]
            · rw [if_neg hev]
              exact h
    exact key es (d s) hcand hd.1
  · intro v q hq
    have hq' : es.foldl
        (fun acc e =>
          if e.v = v then oMin acc ((d e.u).map (· + e.travel_time)) else acc)
        (d v) = some q := hq
    have key : ∀ (l : List TEdge) (acc : Option ℚ),
        (∀ e ∈ l, ∀ q, (d e.u).map (· + e.travel_time) = some q → 0 < q) →
        (∀ q, acc = some q → 0 ≤ q ∧ (v ≠ s → 0 < q)) →
        ∀ q, l.foldl
          (fun acc e =>
            if e.v = v then oMin acc ((d e.u).map (· + e.travel_time)) else acc)
          acc = some q →
          0 ≤ q ∧ (v ≠ s → 0 < q) := by
      intro l
      induction l with
      | nil => intro acc _ hacc q hfold; exact hacc q hfold
      | cons e l ih =>
          intro acc hl hacc q hfold
          rw [List.foldl_cons] at hfold
          refine ih _ (fun e' he' => hl e' (List.mem_cons_of_mem _ he')) ?_ q hfold
          by_cases hev : e.v = v
          · rw [if_pos hev]
            apply oMin_bound
            · intro a b ha hb
              exact ⟨le_min ha.1 hb.1, fun hv => lt_min (ha.2 hv) (hb.2 hv)⟩
            · exact hacc
            · intro qc hqc
              have := hl e (List.mem_cons_self _ _) qc hqc
              exact ⟨le_of_lt this, fun _ => this⟩
          · rw [if_neg hev]
            exact hacc
    exact key es (d v) hcand (fun q hq0 => hd.2 v q hq0) q hq'

lemma distFun_inv (G : TGraph) (hpos : ∀ e ∈ G.edges, 0 < e.travel_time)
    (s : ℕ) : distInv s (distFun G s) := by
  rw [distFun]
  generalize G.nodes.length = n
  induction n with
  | zero =>
      constructor
      · show (if s = s then some (0 : ℚ) else none) = some 0
        rw [if_pos rfl]
      · intro v q hq
        have hq' : (if v = s then some (0 : ℚ) else none) = some q := hq
        by_cases hv : v = s
        · rw [if_pos hv] at hq'
          have : (0 : ℚ) = q := Option.some_inj.1 hq'
          exact ⟨le_of_eq this, fun hne => absurd hv hne⟩
        · rw [if_neg hv] at hq'
          cases hq'
  | succ n ih =>
      rw [Function.iterate_succ_apply']
      exact relaxAll_inv G.edges hpos _ s ih

lemma foldl_pick_mem (f : Node → Node → Node)
    (hf : ∀ a b, f a b = a ∨ f a b = b) :
    ∀ (l : List Node) (a : Node), l.foldl f a ∈ a :: l := by
  intro l
  induction l with
  | nil => intro a; exact List.mem_singleton.2 rfl
  | cons b t ih =>
      intro a
      rw [List.foldl_cons]
      rcases List.mem_cons.1 (ih (f a b)) with h1 | h1
      · rcases hf a b with h2 | h2
        · rw [h1, h2]
          exact List.mem_cons_self _ _
        · rw [h1, h2]
          exact List.mem_cons_of_mem _ (List.mem_cons_self _ _)
      · exact List.mem_cons_of_mem _ (List.mem_cons_of_mem _ h1)

lemma nearestNode_mem (G : TGraph) (lon lat : ℚ) (c : Node)
    (hc : nearestNode G lon lat = some c) : c ∈ G.nodes := by
  rw [nearestNode] at hc
  cases hG : G.nodes with
  | nil => rw [hG] at hc; cases hc
  | cons h rest =>
      rw [hG] at hc
      have hfc : rest.foldl
          (fun best nd =>
            if sqDist nd.x nd.y lon lat < sqDist best.x best.y lon lat then nd
            else best) h = c := Option.some_inj.1 hc
      have hm := foldl_pick_mem
        (fun best nd =>
          if sqDist nd.x nd.y lon lat < sqDist best.x best.y lon lat then nd
          else best)
        (fun a b => by
          by_cases hab : sqDist b.x b.y lon lat < sqDist a.x a.y lon lat
          · exact Or.inr (if_pos hab)
          · exact Or.inl (if_neg hab))
        rest h
      rw [hfc] at hm
      exact hm

lemma filter_eq_singleton (p : Node → Bool) :
    ∀ (l : List Node), (l.map Node.id).Nodup → ∀ c, c ∈ l →
      (∀ nd ∈ l, (p nd = true ↔ nd.id = c.id)) → l.filter p = [c] := by
  intro l
  induction l with
  | nil => intro _ c hc; cases hc
  | cons a t ih =>
      intro hnd c hc hp
      rw [List.map_cons, List.nodup_cons] at hnd
      rcases List.mem_cons.1 hc with heq | hc
      · subst heq
        have hph : p c = true := (hp c (List.mem_cons_self _ _)).2 rfl
        rw [List.filter_cons, if_pos (by rw [hph])]
        have hnil : t.filter p = [] := by
          rw [List.filter_eq_nil_iff]
          intro nd hnd2 hpnd
          have hid : nd.id = c.id := (hp nd (List.mem_cons_of_mem _ hnd2)).1 hpnd
          exact hnd.1 (hid ▸ List.mem_map_of_mem Node.id hnd2)
        rw [hnil]
      · have hph : p a = false := by
          cases hb : p a with
          | false => rfl
          | true =>
              have hid : a.id = c.id := (hp a (List.mem_cons_self _ _)).1 hb
              exact absurd (hid ▸ List.mem_map_of_mem Node.id hc) hnd.1
        rw [List.filter_cons, if_neg (by rw [hph]; simp)]
        exact ih hnd.2 c hc (fun nd hnd2 => hp nd (List.mem_cons_of_mem _ hnd2))

lemma reach_zero (G : TGraph) (hpos : ∀ e ∈ G.edges, 0 < e.travel_time)
    (hids : (G.nodes.map Node.id).Nodup) (c : Node) (hc : c ∈ G.nodes) :
    reachNodes G c.id 0 = [c] := by
  have hinv := distFun_inv G hpos c.id
  rw [reachNodes]
  apply filter_eq_singleton _ G.nodes hids c hc
  intro nd hnd2
  constructor
  · intro hp
    cases hd : distFun G c.id nd.id with
    | none =>
        simp only [hd] at hp
        exact Bool.noConfusion hp
    | some q =>
        simp only [hd, decide_eq_true_eq] at hp
        by_contra hne
        have := (hinv.2 nd.id q hd).2 hne
        linarith
  · intro hid
    rw [hid]
    simp only [hinv.1, decide_eq_true_eq]
    exact le_refl 0

/-- C7 amended: when every annotated edge has strictly positive travel
time and node ids are distinct, a request with time budget 0 reaches
only the nearest node and calculate_isochrone returns None; a
zero-travel-time edge (zero-length edge in walk mode) breaks the
singleton property, as the counterexample shows. -/
theorem C7_zero_budget (G : TGraph) (lat lon : ℚ) (c : Node)
    (hpos : ∀ e ∈ G.edges, 0 < e.travel_time)
    (hids : (G.nodes.map Node.id).Nodup)
    (hc : nearestNode G lon lat = some c) :
    reachNodes G c.id 0 = [c] ∧ calculate_isochrone G lat lon 0 = none := by
  have hr := reach_zero G hpos hids c (nearestNode_mem G lon lat c hc)
  refine ⟨hr, ?_⟩
  simp only [calculate_isochrone, hc, hr]
  simp

/-- Witness for C7 amended on the sample network, whose edges all have
positive travel time. -/
theorem C7_zero_budget_witness :
    reachNodes Gsample 0 0 = [⟨0, 0, 0⟩] ∧
      calculate_isochrone Gsample 0 0 0 = none :=
  C7_zero_budget Gsample 0 0 ⟨0, 0, 0⟩ (by decide) (by decide) (by decide)

end Isochrone

